import Mathlib

/-!
Shallow embedding of the howorth credit-wallet marketplace backend
(models, routes/transaction.js, routes/admin.js, routes/order.js, cronJob.js,
utils/helpers.js), together with theorems settling the specification claims.

Money amounts (JS numbers) are modelled as rationals; Mongo documents are
records in lists; `findOne` / `findById` is `List.find?` on the key, and
`findOneAndUpdate` / `findByIdAndUpdate` updates the first matching document.
Mongoose sessions are modelled by building the post-commit state functionally;
an abort returns the pre-transaction state.
-/

namespace Howorth

/-! ### Data model and operations (translated from the source) -/

/-- Money amount (a JS number). -/
abbrev Amount := ℚ

/-- Mongo object id of a user document. -/
abbrev UserId := ℕ

/-- Mongo object id of an order document. -/
abbrev OrderId := ℕ

/-- Mongo object id of a product document. -/
abbrev ProductId := ℕ

/-- The generated `transactionId` string, modelled as an opaque natural. -/
abbrev TxId := ℕ

/-- User document (models/User.js).  `bankName` stands for
`user.bankDetails.bankName`; the other bank fields are irrelevant to the
claims. -/
structure User where
  id : UserId
  balance : Amount
  referralCode : String
  referredBy : Option String
  hasPlacedFirstOrder : Bool
  bankName : Option String
  deriving DecidableEq, Repr

/-- Product document (models/Product.js): the fields read by order creation
and by the settlement job. -/
structure Product where
  id : ProductId
  price : Amount
  perDayEarning : Amount
  productValidity : Int
  deriving DecidableEq, Repr

/-- Transaction `type` enum. -/
inductive TxType
  | deposit
  | withdrawal
  deriving DecidableEq, Repr

/-- Transaction `status` enum (models/Transaction.js). -/
inductive TxStatus
  | pending
  | approved
  | rejected
  | success
  deriving DecidableEq, Repr

/-- Transaction document (models/Transaction.js).  `transactionId` doubles as
the document id (both uniquely identify a transaction). -/
structure Transaction where
  userId : UserId
  transactionId : TxId
  type : TxType
  amount : Amount
  status : TxStatus
  adminNotes : Option String := none
  deriving DecidableEq, Repr

/-- Order `status` enum. -/
inductive OrderStatus
  | active
  | completed
  deriving DecidableEq, Repr

/-- Order document (unnamed order schema file).  `endDate` is the wall-clock
instant recorded when the settlement job completes the order. -/
structure Order where
  id : OrderId
  userId : UserId
  productId : ProductId
  validity : Int
  status : OrderStatus
  endDate : Option ℕ := none
  deriving DecidableEq, Repr

/-- The persistent store: the four Mongo collections. -/
structure DB where
  users : List User
  products : List Product
  orders : List Order
  transactions : List Transaction
  deriving DecidableEq, Repr

/-- Environment configuration read by the routes. -/
structure Config where
  INVITE_AMOUNT : Option Amount := none
  PAYMENT_TIMEOUT : Option ℕ := none
  deriving DecidableEq, Repr

/-- Semantics of Mongo `findOneAndUpdate` / `findByIdAndUpdate`: update the
first document matching the filter, leave the rest untouched. -/
def updateFirstWhere {α : Type} : List α → (α → Bool) → (α → α) → List α
  | [], _, _ => []
  | x :: xs, p, f => if p x then f x :: xs else x :: updateFirstWhere xs p f

/-- `User.findById`. -/
def findUser (db : DB) (uid : UserId) : Option User :=
  db.users.find? (fun u => u.id == uid)

/-- `Product.findById`. -/
def findProduct (db : DB) (pid : ProductId) : Option Product :=
  db.products.find? (fun p => p.id == pid)

/-- `Order.findById`. -/
def findOrder (db : DB) (oid : OrderId) : Option Order :=
  db.orders.find? (fun o => o.id == oid)

/-- `Transaction.findById` / `findOne` on the transaction id. -/
def findTransaction (db : DB) (i : TxId) : Option Transaction :=
  db.transactions.find? (fun t => t.transactionId == i)

/-- The balance of a user as visible in the store. -/
def userBalance (db : DB) (uid : UserId) : Option Amount :=
  (findUser db uid).map (fun u => u.balance)

/-- `User.findByIdAndUpdate(uid, ...)`. -/
def updateUser (db : DB) (uid : UserId) (f : User → User) : DB :=
  { db with users := updateFirstWhere db.users (fun u => u.id == uid) f }

/-- `Order.findByIdAndUpdate` / saving a loaded order document back. -/
def updateOrder (db : DB) (oid : OrderId) (f : Order → Order) : DB :=
  { db with orders := updateFirstWhere db.orders (fun o => o.id == oid) f }

/-- `Transaction.findOneAndUpdate` on the transaction id / saving a loaded
transaction document back. -/
def updateTransactionDoc (db : DB) (i : TxId) (f : Transaction → Transaction) :
    DB :=
  { db with transactions :=
      updateFirstWhere db.transactions (fun t => t.transactionId == i) f }

/-- `User.findByIdAndUpdate(uid, $inc balance: amount)`. -/
def creditUser (db : DB) (uid : UserId) (amount : Amount) : DB :=
  updateUser db uid (fun u => { u with balance := u.balance + amount })

/-- Result of `canMakeWithdrawal` (utils/helpers.js). -/
structure WithdrawalCheck where
  canWithdraw : Bool
  errors : List String
  deriving DecidableEq, Repr

/-- utils/helpers.js `canMakeWithdrawal(user, amount)`. -/
def canMakeWithdrawal (user : User) (amount : Amount) : WithdrawalCheck :=
  let errors :=
    (if user.bankName.isNone then ["Bank details not submitted"] else []) ++
    (if user.balance < amount then ["Insufficient balance"] else []) ++
    (if amount < 1 then ["Minimum withdrawal amount is 1"] else [])
  { canWithdraw := errors.isEmpty, errors := errors }

/-- utils/helpers.js `calculateReferralBonus()`:
`process.env.INVITE_AMOUNT || 50`. -/
def calculateReferralBonus (cfg : Config) : Amount :=
  cfg.INVITE_AMOUNT.getD 50

/-- Outcome of `POST /api/transactions/withdraw`. -/
inductive WithdrawResult
  | validationFailed
  | userMissing
  | noEnoughBalance (errors : List String)
  | submitted (t : Transaction)
  deriving DecidableEq, Repr

/-- routes/transaction.js `POST /withdraw`: validate the amount, run
`canMakeWithdrawal`, save a pending withdrawal transaction, then debit the
user by `$inc: -transaction.amount` (no session). -/
def withdraw (db : DB) (uid : UserId) (amount : Amount) (newTxId : TxId) :
    WithdrawResult × DB :=
  if amount < 1 then (.validationFailed, db)
  else
    match findUser db uid with
    | none => (.userMissing, db)
    | some user =>
      let check := canMakeWithdrawal user amount
      if check.canWithdraw then
        let t : Transaction :=
          { userId := user.id, transactionId := newTxId, type := .withdrawal,
            amount := amount, status := .pending }
        let db1 := { db with transactions := db.transactions ++ [t] }
        let db2 := updateUser db1 user.id
          (fun u => { u with balance := u.balance - t.amount })
        (.submitted t, db2)
      else (.noEnoughBalance check.errors, db)

/-- Admin action on a pending transaction. -/
inductive ProcessAction
  | approve
  | reject
  deriving DecidableEq, Repr

/-- Outcome of `PUT /api/admin/transactions/:id/process`. -/
inductive ProcessResult
  | notFound
  | alreadyProcessed
  | processed (t : Transaction)
  deriving DecidableEq, Repr

/-- routes/admin.js `PUT /transactions/:id/process`: reject non-pending
transactions with `AlreadyProcessed`; on approve, credit the amount for a
deposit (a withdrawal was already debited at request time) and set status
`success`; on reject, only set status `rejected` — the code performs no
re-credit of a withdrawal. -/
def adminProcessTransaction (db : DB) (i : TxId) (action : ProcessAction)
    (adminNotes : Option String) : ProcessResult × DB :=
  match findTransaction db i with
  | none => (.notFound, db)
  | some transaction =>
    if transaction.status ≠ .pending then (.alreadyProcessed, db)
    else
      match action with
      | .approve =>
        let db1 :=
          if transaction.type = .deposit then
            updateUser db transaction.userId
              (fun u => { u with balance := u.balance + transaction.amount })
          else db
        let t2 : Transaction :=
          { transaction with status := .success, adminNotes := adminNotes }
        (.processed t2, updateTransactionDoc db1 i (fun _ => t2))
      | .reject =>
        let t2 : Transaction :=
          { transaction with status := .rejected, adminNotes := adminNotes }
        (.processed t2, updateTransactionDoc db i (fun _ => t2))

/-- Outcome of `POST /api/orders`. -/
inductive OrderResult
  | validationFailed
  | productNotFound
  | userMissing
  | insufficientBalance (required available : Amount)
  | placed (o : Order)
  deriving DecidableEq, Repr

/-- The order document built by `POST /api/orders`:
`new Order({userId, productId, validity: product.productValidity})`. -/
def newOrderDoc (uid : UserId) (productId : ProductId) (newOrderId : OrderId)
    (product : Product) : Order :=
  { id := newOrderId, userId := uid, productId := productId,
    validity := product.productValidity, status := .active }

/-- `order.save({session})`. -/
def insertOrder (db : DB) (o : Order) : DB :=
  { db with orders := db.orders ++ [o] }

/-- The per-document buyer write of `POST /api/orders`:
`$inc balance: -price, $set hasPlacedFirstOrder: true`. -/
def buyerUpdate (price : Amount) (u : User) : User :=
  { u with balance := u.balance - price, hasPlacedFirstOrder := true }

/-- The buyer update of `POST /api/orders`. -/
def debitBuyer (db : DB) (uid : UserId) (price : Amount) : DB :=
  updateUser db uid (buyerUpdate price)

/-- The referral step of `POST /api/orders`: resolve
`User.findOne({referralCode: user.referredBy})` and, when a referrer exists,
credit them `calculateReferralBonus()`; otherwise change nothing. -/
def applyReferralBonus (cfg : Config) (db : DB) (user : User) : DB :=
  match user.referredBy with
  | some code =>
    match db.users.find? (fun r => r.referralCode == code) with
    | some referrer => creditUser db referrer.id (calculateReferralBonus cfg)
    | none => db
  | none => db

/-- routes/order.js `POST /` (order creation).  The insufficient-balance check
runs before the session; on success the order insert, the buyer debit
(together with `hasPlacedFirstOrder := true`), and the conditional referral
credit all commit in one session.  The referrer is looked up only when this
is the buyer's first order (`isFirstOrder = !user.hasPlacedFirstOrder` read
before the session). -/
def createOrder (cfg : Config) (db : DB) (uid : UserId) (productId : ProductId)
    (newOrderId : OrderId) : OrderResult × DB :=
  match findProduct db productId with
  | none => (.productNotFound, db)
  | some product =>
    match findUser db uid with
    | none => (.userMissing, db)
    | some user =>
      if user.balance < product.price then
        (.insufficientBalance product.price user.balance, db)
      else
        let isFirstOrder := ! user.hasPlacedFirstOrder
        let order := newOrderDoc uid productId newOrderId product
        let db2 := debitBuyer (insertOrder db order) uid product.price
        let db3 :=
          if isFirstOrder then applyReferralBonus cfg db2 user else db2
        (.placed order, db3)

/-- Session semantics of order creation: every write of the route handler is
buffered in the mongoose session, so an abort before `commitTransaction`
leaves the pre-session store; otherwise the full effect commits. -/
def createOrderCrash (cfg : Config) (db : DB) (uid : UserId)
    (productId : ProductId) (newOrderId : OrderId)
    (crashBeforeCommit : Bool) : DB :=
  if crashBeforeCommit then db
  else (createOrder cfg db uid productId newOrderId).2

/-- The order document after one settlement step (cronJob.js lines 27–32):
decrement `validity`; when it reaches 0 (or below), complete the order and
stamp `endDate = now`. -/
def settleOrderDoc (now : ℕ) (order : Order) : Order :=
  let order1 := { order with validity := order.validity - 1 }
  if order1.validity ≤ 0 then
    { order1 with status := .completed, endDate := some now }
  else order1

/-- Loop body of cronJob.js `updateBalances` for one order of the active-order
snapshot: look the product up, and if it exists credit `perDayEarning` to the
user, then save the decremented (and possibly completed) order document back.
A missing product skips the order entirely. -/
def settleOrder (now : ℕ) (db : DB) (order : Order) : DB :=
  match findProduct db order.productId with
  | none => db
  | some product =>
    let db1 := creditUser db order.userId product.perDayEarning
    updateOrder db1 order.id (fun _ => settleOrderDoc now order)

/-- cronJob.js `updateBalances`: scan the active orders and settle each one;
the whole scan runs in a single mongoose session, committed at the end. -/
def updateBalances (now : ℕ) (db : DB) : DB :=
  (db.orders.filter (fun o => o.status == .active)).foldl (settleOrder now) db

/-- Loop body of `updateBalances` with a fault model: saving the order
document can fail, which throws out of the loop. -/
def settleOrderE (now : ℕ) (saveFails : OrderId → Bool) (db : DB)
    (order : Order) : Except Unit DB :=
  match findProduct db order.productId with
  | none => Except.ok db
  | some product =>
    if saveFails order.id then Except.error ()
    else
      let db1 := creditUser db order.userId product.perDayEarning
      Except.ok (updateOrder db1 order.id (fun _ => settleOrderDoc now order))

/-- cronJob.js `updateBalances` under the fault model: any error inside the
loop aborts the single session wrapping the whole scan, so the store reverts
to its pre-run state. -/
def updateBalancesWithFailure (now : ℕ) (saveFails : OrderId → Bool)
    (db : DB) : DB :=
  match (db.orders.filter (fun o => o.status == .active)).foldlM
      (settleOrderE now saveFails) db with
  | Except.ok db2 => db2
  | Except.error _ => db

/-- Module-level mutable state of routes/transaction.js: the single-slot
gateway admission gate.  `tr_id = none` models the empty string; `timers`
holds the absolute fire times of every `setTimeout(resetval, timeout)`
callback still scheduled (the code never cancels them). -/
structure Gateway where
  tr_id : Option TxId
  deposit_busy : Bool
  reset : Bool
  timers : List ℕ
  deriving DecidableEq, Repr

/-- The initial module state of routes/transaction.js. -/
def Gateway.init : Gateway :=
  { tr_id := none, deposit_busy := false, reset := true, timers := [] }

/-- routes/transaction.js `resetval()`. -/
def resetval (g : Gateway) : Gateway :=
  if g.reset = false then
    { g with deposit_busy := false, tr_id := none, reset := true }
  else g

/-- Whole-system state: the store plus the gateway module state. -/
structure Sys where
  db : DB
  gw : Gateway
  deriving DecidableEq, Repr

/-- `PAYMENT_TIMEOUT || 5 * 60 * 1000`. -/
def paymentTimeout (cfg : Config) : ℕ :=
  cfg.PAYMENT_TIMEOUT.getD (5 * 60 * 1000)

/-- Outcome of `POST /api/transactions/deposit`. -/
inductive DepositResult
  | validationFailed
  | gatewayBusy
  | submitted (t : Transaction)
  deriving DecidableEq, Repr

/-- routes/transaction.js `POST /deposit`: fail fast when `deposit_busy`;
otherwise clear `reset`, record the new transaction id in `tr_id`, save a
pending deposit transaction, mark the gate busy and schedule a `resetval`
timer `timeout` from now. -/
def deposit (now timeout : ℕ) (s : Sys) (uid : UserId) (amount : Amount)
    (newTxId : TxId) : DepositResult × Sys :=
  if amount < 1 then (.validationFailed, s)
  else if s.gw.deposit_busy then (.gatewayBusy, s)
  else
    let t : Transaction :=
      { userId := uid, transactionId := newTxId, type := .deposit,
        amount := amount, status := .pending }
    let db1 := { s.db with transactions := s.db.transactions ++ [t] }
    let gw1 :=
      { s.gw with reset := false, tr_id := some newTxId,
                  deposit_busy := true, timers := s.gw.timers ++ [now + timeout] }
    (.submitted t, { db := db1, gw := gw1 })

/-- Error raised out of the webhook handler. -/
inductive WebhookError
  | invalidSignature
  | nullDeref
  deriving DecidableEq, Repr

/-- Acknowledgement returned by the webhook handler. -/
inductive WebhookAck
  | processed
  | eventIgnored
  deriving DecidableEq, Repr

/-- The `findOneAndUpdate` filter of the webhook handler: the transaction
whose id is the outstanding lease id and whose amount equals the payment
amount converted from minor units (`payment.amount / 100`). -/
def webhookFilter (leaseId : TxId) (paymentAmountPaise : Amount)
    (t : Transaction) : Bool :=
  t.transactionId == leaseId && t.amount == paymentAmountPaise / 100

/-- The updated transaction list of the webhook handler: the first matching
transaction is set to status `success`. -/
def markedTransactions (db : DB) (leaseId : TxId)
    (paymentAmountPaise : Amount) : List Transaction :=
  updateFirstWhere db.transactions (webhookFilter leaseId paymentAmountPaise)
    (fun t => { t with status := TxStatus.success })

/-- The `findOneAndUpdate` write of the webhook handler: set the first
matching transaction to status `success`. -/
def markDepositSuccess (db : DB) (leaseId : TxId)
    (paymentAmountPaise : Amount) : DB :=
  { db with transactions := markedTransactions db leaseId paymentAmountPaise }

/-- routes/transaction.js `POST /deposit/received`: after signature
verification, a `payment.captured` event with a non-empty lease
`findOneAndUpdate`s the transaction matching the lease id and the converted
amount (`payment.amount / 100`) to status `success` and credits the user; a
null match makes `transaction.userId` throw a TypeError (`nullDeref`) before
any write. -/
def webhookReceived (s : Sys) (signatureValid : Bool) (event : String)
    (paymentAmountPaise : Amount) :
    Except WebhookError (WebhookAck × Sys) :=
  if ¬ signatureValid then Except.error .invalidSignature
  else if event ≠ "payment.captured" then Except.ok (.eventIgnored, s)
  else
    match s.gw.tr_id with
    | none => Except.ok (.processed, s)
    | some leaseId =>
      match s.db.transactions.find? (webhookFilter leaseId paymentAmountPaise) with
      | none => Except.error .nullDeref
      | some transaction =>
        let db1 := markDepositSuccess s.db leaseId paymentAmountPaise
        let db2 := creditUser db1 transaction.userId transaction.amount
        Except.ok (.processed, { db := db2, gw := resetval s.gw })

/-- Fire every scheduled `setTimeout` callback that is due at `now`; each one
runs `resetval` on the module state. -/
def fireDueTimers (now : ℕ) (g : Gateway) : Gateway :=
  let due := g.timers.filter (fun t => t ≤ now)
  let rest := g.timers.filter (fun t => ¬ t ≤ now)
  due.foldl (fun acc _ => resetval acc) { g with timers := rest }

/-- External stimulus of the deposit subsystem. -/
inductive Event
  | depositReq (uid : UserId) (amount : Amount) (newTxId : TxId)
  | webhook (signatureValid : Bool) (event : String)
      (paymentAmountPaise : Amount)
  deriving DecidableEq, Repr

/-- Process one timestamped stimulus: the event loop first runs every timer
due by that instant, then the request handler.  A handler that throws leaves
the state as of the throw (both throwing paths write nothing first). -/
def stepAt (timeout : ℕ) (s : Sys) (te : ℕ × Event) : Sys :=
  let s1 := { s with gw := fireDueTimers te.1 s.gw }
  match te.2 with
  | .depositReq uid amount newTxId =>
    (deposit te.1 timeout s1 uid amount newTxId).2
  | .webhook sv ev amt =>
    match webhookReceived s1 sv ev amt with
    | Except.ok r => r.2
    | Except.error _ => s1

/-- Run a timestamped stimulus trace from a start state. -/
def runTrace (timeout : ℕ) (s0 : Sys) (tr : List (ℕ × Event)) : Sys :=
  tr.foldl (stepAt timeout) s0

/-- A deposit request arriving at `now`: the event loop first fires every due
timer, then the handler runs.  Unlike `stepAt` this keeps the handler's
result. -/
def attemptDeposit (timeout : ℕ) (s : Sys) (now : ℕ) (uid : UserId)
    (amt : Amount) (txid : TxId) : DepositResult × Sys :=
  deposit now timeout { s with gw := fireDueTimers now s.gw } uid amt txid

/-- The interleaving that breaks the lease gate: deposit 101 is granted at
time 0 (timer due at 5), its webhook succeeds at time 1 releasing the lease,
and deposit 102 is granted at time 2 (its own timer due at 7). -/
def staleTrace : List (ℕ × Event) :=
  [(0, Event.depositReq 1 10 101),
   (1, Event.webhook true "payment.captured" 1000),
   (2, Event.depositReq 1 20 102)]

/-- The credit one order contributes to one user in a settlement run: its
product's `perDayEarning` when the order belongs to the user and the product
exists, nothing otherwise. -/
def settlementCredit (products : List Product) (uid : UserId) (o : Order) :
    Amount :=
  if o.userId == uid then
    match products.find? (fun p => p.id == o.productId) with
    | some p => p.perDayEarning
    | none => 0
  else 0

/-- The total settlement credit of a list of orders for one user. -/
def settlementCredits (products : List Product) (uid : UserId)
    (L : List Order) : Amount :=
  (L.map (settlementCredit products uid)).sum

/-- The store committed by a successful `POST /api/orders` session. -/
def createOrderCommitted (cfg : Config) (db : DB) (uid : UserId)
    (pid : ProductId) (oid : OrderId) (product : Product) (user : User) : DB :=
  let order := newOrderDoc uid pid oid product
  let db2 := debitBuyer (insertOrder db order) uid product.price
  if ! user.hasPlacedFirstOrder then applyReferralBonus cfg db2 user else db2

/-- A user with balance 100, submitted bank details, and no referrer. -/
def demoUser : User :=
  { id := 1, balance := 100, referralCode := "AAA111", referredBy := none,
    hasPlacedFirstOrder := true, bankName := some "SBI" }

/-- A store holding only `demoUser`. -/
def demoDb : DB :=
  { users := [demoUser], products := [], orders := [], transactions := [] }

/-- The whole-system start state holding only `demoUser`. -/
def demoSys : Sys := { db := demoDb, gw := Gateway.init }

/-- A catalog product: price 500, daily earning 50, 2 days of validity. -/
def demoProduct : Product :=
  { id := 11, price := 500, perDayEarning := 50, productValidity := 2 }

/-- A buyer referred by `demoUser` who has not yet placed an order. -/
def buyer : User :=
  { id := 3, balance := 600, referralCode := "CCC333",
    referredBy := some "AAA111", hasPlacedFirstOrder := false,
    bankName := none }

/-- A store with referrer `demoUser`, `buyer` and `demoProduct`. -/
def orderDb : DB :=
  { users := [demoUser, buyer], products := [demoProduct], orders := [],
    transactions := [] }

/-- A user holding orders for the settlement scenarios. -/
def cronUser : User :=
  { id := 2, balance := 0, referralCode := "BBB222", referredBy := none,
    hasPlacedFirstOrder := true, bankName := none }

/-- An active order of `cronUser` on `demoProduct` with one day left. -/
def cronOrder : Order :=
  { id := 41, userId := 2, productId := 11, validity := 1,
    status := .active }

/-- A store for the single-order settlement scenario. -/
def cronDb : DB :=
  { users := [cronUser], products := [demoProduct], orders := [cronOrder],
    transactions := [] }

/-- An active order whose product id 99 resolves to no product. -/
def orphanOrder : Order :=
  { id := 42, userId := 2, productId := 99, validity := 2,
    status := .active }

/-- A store for the deleted-product settlement scenario. -/
def orphanDb : DB :=
  { users := [cronUser], products := [demoProduct], orders := [orphanOrder],
    transactions := [] }

/-- Two users with two active orders for the partial-failure scenario. -/
def cronFailDb : DB :=
  { users := [{ demoUser with balance := 0 }, cronUser],
    products := [demoProduct],
    orders := [{ id := 21, userId := 1, productId := 11, validity := 2,
                 status := .active },
               { id := 23, userId := 2, productId := 11, validity := 3,
                 status := .active }],
    transactions := [] }

/-! ### Lemmas and claim theorems -/

theorem updateFirstWhere_of_find?_eq_none {α : Type} (p : α → Bool) (f : α → α) :
    ∀ l : List α, l.find? p = none → updateFirstWhere l p f = l := by
  intro l
  induction l with
  | nil => intro _; rfl
  | cons a as ih =>
    intro h
    cases ha : p a with
    | true => rw [List.find?_cons, ha] at h; exact absurd h (by simp)
    | false =>
      rw [List.find?_cons, ha] at h
      simp only [updateFirstWhere, ha, if_neg Bool.false_ne_true, ih h]

theorem find?_updateFirstWhere_self {α : Type} (p : α → Bool) (f : α → α)
    (hf : ∀ x, p x = true → p (f x) = true) :
    ∀ (l : List α) (x : α), l.find? p = some x →
      (updateFirstWhere l p f).find? p = some (f x) := by
  intro l
  induction l with
  | nil => intro x h; simp [List.find?] at h
  | cons a as ih =>
    intro x h
    cases ha : p a with
    | true =>
      rw [List.find?_cons, ha] at h
      have hax : a = x := by injection h
      subst hax
      simp [updateFirstWhere, ha, List.find?_cons, hf a ha]
    | false =>
      rw [List.find?_cons, ha] at h
      simp only [updateFirstWhere, ha, Bool.false_eq_true, if_false]
      rw [List.find?_cons, ha]
      exact ih x h

theorem find?_updateFirstWhere_disjoint {α : Type} (p q : α → Bool) (f : α → α) :
    ∀ l : List α, (∀ x ∈ l, p x = true → q x = false) →
      (∀ x ∈ l, p x = true → q (f x) = false) →
      (updateFirstWhere l p f).find? q = l.find? q := by
  intro l
  induction l with
  | nil => intro _ _; rfl
  | cons a as ih =>
    intro h1 h2
    cases ha : p a with
    | true =>
      simp [updateFirstWhere, ha, List.find?_cons,
        h1 a (List.mem_cons_self a as) ha, h2 a (List.mem_cons_self a as) ha]
    | false =>
      simp only [updateFirstWhere, ha, Bool.false_eq_true, if_false]
      rw [List.find?_cons, List.find?_cons]
      cases hqa : q a with
      | true => rfl
      | false =>
        exact ih (fun x hx => h1 x (List.mem_cons_of_mem a hx))
          (fun x hx => h2 x (List.mem_cons_of_mem a hx))

theorem find?_updateFirstWhere_congr {α : Type} (p q : α → Bool) (f : α → α)
    (hq : ∀ x, q (f x) = q x) :
    ∀ l : List α, l.find? q = none →
      (updateFirstWhere l p f).find? q = none := by
  intro l
  induction l with
  | nil => intro _; rfl
  | cons a as ih =>
    intro h
    rw [List.find?_cons] at h
    cases hqa : q a with
    | true => rw [hqa] at h; exact absurd h (by simp)
    | false =>
      rw [hqa] at h
      cases ha : p a with
      | true =>
        simp only [updateFirstWhere, ha, if_true]
        rw [List.find?_cons, hq a, hqa]
        exact h
      | false =>
        simp only [updateFirstWhere, ha, Bool.false_eq_true, if_false]
        rw [List.find?_cons, hqa]
        exact ih h

theorem mem_updateFirstWhere {α : Type} (p : α → Bool) (f : α → α) :
    ∀ (l : List α) (y : α), y ∈ updateFirstWhere l p f →
      ∃ x ∈ l, y = f x ∨ y = x := by
  intro l
  induction l with
  | nil => intro y h; simp [updateFirstWhere] at h
  | cons a as ih =>
    intro y h
    cases ha : p a with
    | true =>
      simp only [updateFirstWhere, ha, if_true] at h
      rcases List.mem_cons.mp h with hy | hy
      · exact ⟨a, List.mem_cons_self a as, Or.inl hy⟩
      · exact ⟨y, List.mem_cons_of_mem a hy, Or.inr rfl⟩
    | false =>
      simp only [updateFirstWhere, ha, Bool.false_eq_true, if_false] at h
      rcases List.mem_cons.mp h with hy | hy
      · exact ⟨a, List.mem_cons_self a as, Or.inr hy⟩
      · rcases ih y hy with ⟨x, hx, hfx⟩
        exact ⟨x, List.mem_cons_of_mem a hx, hfx⟩

theorem findUser_updateUser_self (db : DB) (uid : UserId) (f : User → User)
    (hf : ∀ u, (f u).id = u.id) {u : User} (h : findUser db uid = some u) :
    findUser (updateUser db uid f) uid = some (f u) := by
  unfold findUser updateUser at *
  exact find?_updateFirstWhere_self _ f
    (fun x hx => by rw [hf x]; exact hx) db.users u h

theorem findUser_updateUser_other (db : DB) (uid rid : UserId) (f : User → User)
    (hf : ∀ u, (f u).id = u.id) (hne : rid ≠ uid) :
    findUser (updateUser db uid f) rid = findUser db rid := by
  unfold findUser updateUser
  refine find?_updateFirstWhere_disjoint _ _ f db.users ?_ ?_
  · intro x _ hx
    have : x.id = uid := by simpa using hx
    simp [this, Ne.symm hne]
  · intro x _ hx
    have : x.id = uid := by simpa using hx
    simp [hf x, this, Ne.symm hne]

theorem findTransaction_updateTransactionDoc_self (db : DB) (i : TxId)
    (f : Transaction → Transaction)
    (hf : ∀ t, t.transactionId = i → (f t).transactionId = i)
    {t : Transaction} (h : findTransaction db i = some t) :
    findTransaction (updateTransactionDoc db i f) i = some (f t) := by
  unfold findTransaction updateTransactionDoc at *
  refine find?_updateFirstWhere_self _ f ?_ db.transactions t h
  intro x hx
  have hxi : x.transactionId = i := by simpa using hx
  simpa using hf x hxi

theorem findTransaction_some_id (db : DB) (i : TxId) {t : Transaction}
    (h : findTransaction db i = some t) : t.transactionId = i := by
  have := List.find?_some h
  simpa using this

theorem settleOrderDoc_id (now : ℕ) (o : Order) :
    (settleOrderDoc now o).id = o.id := by
  unfold settleOrderDoc
  by_cases h : o.validity - 1 ≤ 0 <;> simp [h]

theorem products_settleOrder (now : ℕ) (db : DB) (o : Order) :
    (settleOrder now db o).products = db.products := by
  unfold settleOrder
  cases hp : findProduct db o.productId <;> rfl

theorem findProduct_settleOrder (now : ℕ) (db : DB) (o : Order)
    (pid : ProductId) :
    findProduct (settleOrder now db o) pid = findProduct db pid := by
  unfold findProduct
  rw [products_settleOrder]

theorem settleOrder_of_no_product (now : ℕ) (db : DB) (o : Order)
    (hp : findProduct db o.productId = none) : settleOrder now db o = db := by
  unfold settleOrder
  rw [hp]

theorem findUser_settleOrder (now : ℕ) (db : DB) (o : Order) (uid : UserId)
    (u : User) (hu : findUser db uid = some u) :
    ∃ u2, findUser (settleOrder now db o) uid = some u2 ∧
      u2.balance = u.balance + settlementCredit db.products uid o ∧
      u2.id = u.id := by
  unfold settleOrder
  cases hp : findProduct db o.productId with
  | none =>
    refine ⟨u, hu, ?_, rfl⟩
    unfold settlementCredit
    unfold findProduct at hp
    rw [hp]
    cases o.userId == uid <;> simp
  | some p =>
    cases huid : (o.userId == uid) with
    | true =>
      have heq : o.userId = uid := by simpa using huid
      subst heq
      have h2 := findUser_updateUser_self db o.userId
        (fun x => { x with balance := x.balance + p.perDayEarning })
        (fun _ => rfl) hu
      refine ⟨{ u with balance := u.balance + p.perDayEarning }, ?_, ?_, rfl⟩
      · show findUser (updateOrder (creditUser db o.userId p.perDayEarning)
          o.id (fun _ => settleOrderDoc now o)) o.userId = _
        unfold creditUser
        exact h2
      · unfold settlementCredit
        unfold findProduct at hp
        rw [hp]
        simp
    | false =>
      have hne : uid ≠ o.userId := by
        intro h
        rw [h] at huid
        simp at huid
      refine ⟨u, ?_, ?_, rfl⟩
      · show findUser (updateUser db o.userId
          (fun x => { x with balance := x.balance + p.perDayEarning })) uid =
          some u
        rw [findUser_updateUser_other db o.userId uid
          (fun x => { x with balance := x.balance + p.perDayEarning })
          (fun _ => rfl) hne]
        exact hu
      · unfold settlementCredit
        rw [huid]
        simp

theorem findUser_foldl_settle (now : ℕ) :
    ∀ (L : List Order) (db : DB) (uid : UserId) (u : User),
      findUser db uid = some u →
      ∃ u2, findUser (L.foldl (settleOrder now) db) uid = some u2 ∧
        u2.balance = u.balance + settlementCredits db.products uid L ∧
        u2.id = u.id := by
  intro L
  induction L with
  | nil =>
    intro db uid u hu
    exact ⟨u, hu, by simp [settlementCredits], rfl⟩
  | cons o L ih =>
    intro db uid u hu
    rcases findUser_settleOrder now db o uid u hu with ⟨u1, hu1, hb1, hid1⟩
    rcases ih (settleOrder now db o) uid u1 hu1 with ⟨u2, hu2, hb2, hid2⟩
    refine ⟨u2, hu2, ?_, by rw [hid2, hid1]⟩
    rw [hb2, hb1, products_settleOrder]
    unfold settlementCredits
    rw [List.map_cons, List.sum_cons]
    ring

theorem settlementCredits_zero (products : List Product) (uid : UserId)
    (L : List Order) (h : ∀ o ∈ L, settlementCredit products uid o = 0) :
    settlementCredits products uid L = 0 := by
  unfold settlementCredits
  refine List.sum_eq_zero ?_
  intro x hx
  rcases List.mem_map.mp hx with ⟨o, ho, rfl⟩
  exact h o ho

theorem settlementCredits_single (products : List Product) (uid : UserId) :
    ∀ (L : List Order) (o : Order), o ∈ L →
      (L.map (fun x => x.id)).Nodup →
      (∀ o2 ∈ L, o2 ≠ o → settlementCredit products uid o2 = 0) →
      settlementCredits products uid L = settlementCredit products uid o := by
  intro L
  induction L with
  | nil => intro o hmem; exact absurd hmem (List.not_mem_nil o)
  | cons a L ih =>
    intro o hmem hnodup hz
    rcases List.mem_cons.mp hmem with ha | ha
    · have hnotin : o ∉ L := by
        intro hin
        have hidin : o.id ∈ L.map (fun x => x.id) := List.mem_map_of_mem _ hin
        rw [ha] at hidin
        exact (List.nodup_cons.mp hnodup).1 hidin
      have hzl : ∀ o2 ∈ L, settlementCredit products uid o2 = 0 := by
        intro o2 h2
        refine hz o2 (List.mem_cons_of_mem a h2) ?_
        intro heq
        exact hnotin (heq ▸ h2)
      unfold settlementCredits
      rw [List.map_cons, List.sum_cons]
      have hz0 := settlementCredits_zero products uid L hzl
      unfold settlementCredits at hz0
      rw [hz0, ← ha]
      ring
    · have hne : a ≠ o := by
        intro heq
        have hidin : o.id ∈ L.map (fun x => x.id) := List.mem_map_of_mem _ ha
        rw [← heq] at hidin
        exact (List.nodup_cons.mp hnodup).1 hidin
      have hza : settlementCredit products uid a = 0 :=
        hz a (List.mem_cons_self a L) hne
      have hrec := ih o ha (List.nodup_cons.mp hnodup).2
        (fun o2 h2 => hz o2 (List.mem_cons_of_mem a h2))
      unfold settlementCredits at *
      rw [List.map_cons, List.sum_cons, hza, hrec]
      ring

theorem findOrder_settleOrder_other (now : ℕ) (db : DB) (o2 : Order)
    (oid : OrderId) (hne : o2.id ≠ oid) :
    findOrder (settleOrder now db o2) oid = findOrder db oid := by
  unfold settleOrder
  cases hp : findProduct db o2.productId with
  | none => rfl
  | some p =>
    show findOrder (updateOrder (creditUser db o2.userId p.perDayEarning)
      o2.id (fun _ => settleOrderDoc now o2)) oid = findOrder db oid
    unfold findOrder updateOrder
    refine find?_updateFirstWhere_disjoint _ _ _ _ ?_ ?_
    · intro x _ hx
      have hxid : x.id = o2.id := by simpa using hx
      simp [hxid]
      exact hne
    · intro x _ _
      simp [settleOrderDoc_id]
      exact hne

theorem findOrder_settleOrder_self (now : ℕ) (db : DB) (o : Order) (p : Product)
    (ho : findOrder db o.id = some o)
    (hp : findProduct db o.productId = some p) :
    findOrder (settleOrder now db o) o.id = some (settleOrderDoc now o) := by
  unfold settleOrder
  rw [hp]
  show findOrder (updateOrder (creditUser db o.userId p.perDayEarning)
    o.id (fun _ => settleOrderDoc now o)) o.id = _
  unfold findOrder updateOrder
  have h := find?_updateFirstWhere_self (fun x : Order => x.id == o.id)
    (fun _ => settleOrderDoc now o)
    (fun x _ => by simp [settleOrderDoc_id]) db.orders o ho
  exact h

theorem findOrder_run_frame (now : ℕ) :
    ∀ (L : List Order) (db : DB) (oid : OrderId),
      (∀ o2 ∈ L, o2.id ≠ oid) →
      findOrder (L.foldl (settleOrder now) db) oid = findOrder db oid := by
  intro L
  induction L with
  | nil => intro db oid _; rfl
  | cons a L ih =>
    intro db oid h
    rw [List.foldl_cons, ih (settleOrder now db a) oid
      (fun o2 h2 => h o2 (List.mem_cons_of_mem a h2)),
      findOrder_settleOrder_other now db a oid (h a (List.mem_cons_self a L))]

theorem findOrder_run_settled (now : ℕ) :
    ∀ (L : List Order) (db : DB) (o : Order) (p : Product),
      o ∈ L →
      (L.map (fun x => x.id)).Nodup →
      (∀ o2 ∈ L, o2.id = o.id → o2 = o) →
      findOrder db o.id = some o →
      findProduct db o.productId = some p →
      findOrder (L.foldl (settleOrder now) db) o.id =
        some (settleOrderDoc now o) := by
  intro L
  induction L with
  | nil => intro db o p hmem; exact absurd hmem (List.not_mem_nil o)
  | cons a L ih =>
    intro db o p hmem hnodup hids ho hp
    rw [List.foldl_cons]
    by_cases ha : a = o
    · subst ha
      have hstep := findOrder_settleOrder_self now db a p ho hp
      have hnotin : ∀ o2 ∈ L, o2.id ≠ a.id := by
        intro o2 h2 heq
        have : a.id ∈ L.map (fun x => x.id) := heq ▸ List.mem_map_of_mem _ h2
        exact (List.nodup_cons.mp hnodup).1 this
      rw [findOrder_run_frame now L (settleOrder now db a) a.id hnotin]
      exact hstep
    · have hane : a.id ≠ o.id := by
        intro heq
        exact ha (hids a (List.mem_cons_self a L) heq)
      have hmem2 : o ∈ L := by
        rcases List.mem_cons.mp hmem with h | h
        · exact absurd h.symm ha
        · exact h
      refine ih (settleOrder now db a) o p hmem2 (List.nodup_cons.mp hnodup).2
        (fun o2 h2 => hids o2 (List.mem_cons_of_mem a h2)) ?_ ?_
      · rw [findOrder_settleOrder_other now db a o.id hane]
        exact ho
      · rw [findProduct_settleOrder]
        exact hp

theorem findOrder_run_skipped (now : ℕ) :
    ∀ (L : List Order) (db : DB) (o : Order),
      (∀ o2 ∈ L, o2.id = o.id → o2 = o) →
      findOrder db o.id = some o →
      findProduct db o.productId = none →
      findOrder (L.foldl (settleOrder now) db) o.id = some o := by
  intro L
  induction L with
  | nil => intro db o _ ho _; exact ho
  | cons a L ih
 =>
    intro db o hids ho hp
    rw [List.foldl_cons]
    by_cases ha : a.id = o.id
    · have hao : a = o := hids a (List.mem_cons_self a L) ha
      subst hao
      rw [settleOrder_of_no_product now db a hp]
      exact ih db a (fun o2 h2 => hids o2 (List.mem_cons_of_mem a h2)) ho hp
    · refine ih (settleOrder now db a) o
        (fun o2 h2 => hids o2 (List.mem_cons_of_mem a h2)) ?_ ?_
      · rw [findOrder_settleOrder_other now db a o.id ha]
        exact ho
      · rw [findProduct_settleOrder]
        exact hp

theorem findOrder_insertOrder_new (db : DB) (o : Order)
    (h : findOrder db o.id = none) :
    findOrder (insertOrder db o) o.id = some o := by
  unfold findOrder insertOrder at *
  rw [List.find?_append, h]
  simp [List.find?]

theorem orders_applyReferralBonus (cfg : Config) (db : DB) (user : User) :
    (applyReferralBonus cfg db user).orders = db.orders := by
  unfold applyReferralBonus
  cases user.referredBy with
  | none => rfl
  | some code =>
    dsimp only
    cases hrr : db.users.find? (fun r => r.referralCode == code) <;> rfl

theorem findUser_debitBuyer_other (db : DB) (uid w : UserId) (price : Amount)
    (hw : w ≠ uid) :
    findUser (debitBuyer db uid price) w = findUser db w := by
  unfold debitBuyer
  exact findUser_updateUser_other db uid w (buyerUpdate price) (fun _ => rfl) hw

theorem mem_users_updateUser (db : DB) (k : UserId) (f : User → User)
    (hid : ∀ u, (f u).id = u.id)
    (hcode : ∀ u, (f u).referralCode = u.referralCode) :
    ∀ r ∈ (updateUser db k f).users,
      ∃ x ∈ db.users, r.id = x.id ∧ r.referralCode = x.referralCode := by
  intro r hr
  rcases mem_updateFirstWhere _ f db.users r hr with ⟨x, hx, hcase⟩
  rcases hcase with h | h
  · exact ⟨x, hx, by rw [h, hid x], by rw [h, hcode x]⟩
  · exact ⟨x, hx, by rw [h], by rw [h]⟩

theorem findUser_applyReferralBonus_self (cfg : Config) (db : DB) (user : User)
    (uid : UserId)
    (hnoself : ∀ r ∈ db.users, some r.referralCode = user.referredBy →
      r.id ≠ uid) :
    findUser (applyReferralBonus cfg db user) uid = findUser db uid := by
  unfold applyReferralBonus
  cases href : user.referredBy with
  | none => rfl
  | some code =>
    dsimp only
    cases hrr : db.users.find? (fun r => r.referralCode == code) with
    | none => rfl
    | some referrer =>
      have hmem : referrer ∈ db.users := List.mem_of_find?_eq_some hrr
      have hcode : referrer.referralCode = code := by
        have := List.find?_some hrr
        simpa using this
      have hne : referrer.id ≠ uid :=
        hnoself referrer hmem (by rw [hcode, href])
      exact findUser_updateUser_other db referrer.id uid _ (fun _ => rfl)
        (fun h => hne h.symm)

theorem createOrder_success_shape (cfg : Config) (db : DB) (uid : UserId)
    (pid : ProductId) (oid : OrderId) (product : Product) (user : User)
    (hp : findProduct db pid = some product)
    (hu : findUser db uid = some user)
    (hbal : ¬ user.balance < product.price) :
    createOrder cfg db uid pid oid =
      (OrderResult.placed (newOrderDoc uid pid oid product),
        createOrderCommitted cfg db uid pid oid product user) := by
  unfold createOrder createOrderCommitted
  rw [hp, hu]
  simp [hbal]

theorem createOrder_fail_shape (cfg : Config) (db : DB) (uid : UserId)
    (pid : ProductId) (oid : OrderId) (product : Product) (user : User)
    (hp : findProduct db pid = some product)
    (hu : findUser db uid = some user)
    (hbal : user.balance < product.price) :
    createOrder cfg db uid pid oid =
      (OrderResult.insufficientBalance product.price user.balance, db) := by
  unfold createOrder
  rw [hp, hu]
  simp [hbal]

theorem orders_createOrderCommitted (cfg : Config) (db : DB) (uid : UserId)
    (pid : ProductId) (oid : OrderId) (product : Product) (user : User) :
    (createOrderCommitted cfg db uid pid oid product user).orders =
      db.orders ++ [newOrderDoc uid pid oid product] := by
  unfold createOrderCommitted
  cases user.hasPlacedFirstOrder with
  | false => simp [orders_applyReferralBonus, debitBuyer, updateUser, insertOrder]
  | true => simp [debitBuyer, updateUser, insertOrder]

theorem findOrder_createOrderCommitted (cfg : Config) (db : DB) (uid : UserId)
    (pid : ProductId) (oid : OrderId) (product : Product) (user : User)
    (hfresh : findOrder db oid = none) :
    findOrder (createOrderCommitted cfg db uid pid oid product user) oid =
      some (newOrderDoc uid pid oid product) := by
  unfold findOrder at *
  rw [orders_createOrderCommitted, List.find?_append, hfresh]
  simp [List.find?, newOrderDoc]

theorem findUser_debitBuyer_self (db : DB) (uid : UserId) (price : Amount)
    {user : User} (hu : findUser db uid = some user) :
    findUser (debitBuyer db uid price) uid =
      some { user with balance := user.balance - price, hasPlacedFirstOrder := true } := by
  unfold debitBuyer
  exact findUser_updateUser_self db uid (buyerUpdate price) (fun _ => rfl) hu

theorem userBalance_createOrderCommitted (cfg : Config) (db : DB)
    (uid : UserId) (pid : ProductId) (oid : OrderId) (product : Product)
    (user : User)
    (hu : findUser db uid = some user)
    (hnoself : ∀ r ∈ db.users, some r.referralCode = user.referredBy →
      r.id ≠ uid) :
    userBalance (createOrderCommitted cfg db uid pid oid product user) uid =
      some (user.balance - product.price) := by
  have hu1 : findUser (insertOrder db (newOrderDoc uid pid oid product)) uid =
      some user := hu
  have h2 := findUser_debitBuyer_self
    (insertOrder db (newOrderDoc uid pid oid product)) uid product.price hu1
  have hnoself2 : ∀ r ∈ (debitBuyer
      (insertOrder db (newOrderDoc uid pid oid product)) uid
      product.price).users,
      some r.referralCode = user.referredBy → r.id ≠ uid := by
    intro r hr hcode
    unfold debitBuyer at hr
    rcases mem_users_updateUser (insertOrder db (newOrderDoc uid pid oid product))
      uid (buyerUpdate product.price)
      (fun _ => rfl) (fun _ => rfl) r hr with ⟨x, hx, hidx, hcodex⟩
    rw [hidx]
    exact hnoself x hx (by rw [← hcodex]; exact hcode)
  unfold createOrderCommitted
  cases user.hasPlacedFirstOrder with
  | false =>
    simp only [Bool.not_false, if_true]
    unfold userBalance
    rw [findUser_applyReferralBonus_self _ _ _ _ hnoself2, h2]
    rfl
  | true =>
    simp only [Bool.not_true, Bool.false_eq_true, if_false]
    unfold userBalance
    rw [h2]
    rfl

/-- C2: with the product and buyer present, `createOrder` fails with
`InsufficientBalance` exactly when `balance < price`, and in that case the
whole store is unchanged (no order, no debit, no bonus); otherwise the
purchase succeeds, the order is inserted and the buyer is debited by exactly
the price, and for every abort point of the session the store shows the new
order if and only if it shows the debit (never one without the other). -/
theorem createOrder_insufficient_iff_and_atomic (cfg : Config) (db : DB)
    (uid : UserId) (pid : ProductId) (oid : OrderId) (product : Product)
    (user : User)
    (hp : findProduct db pid = some product)
    (hu : findUser db uid = some user)
    (hfresh : findOrder db oid = none)
    (hpos : 0 < product.price)
    (hnoself : ∀ r ∈ db.users, some r.referralCode = user.referredBy →
      r.id ≠ uid) :
    ((createOrder cfg db uid pid oid).1 =
        OrderResult.insufficientBalance product.price user.balance ↔
      user.balance < product.price) ∧
    (user.balance < product.price →
      createOrder cfg db uid pid oid =
        (OrderResult.insufficientBalance product.price user.balance, db)) ∧
    (¬ user.balance < product.price →
      (createOrder cfg db uid pid oid).1 =
        OrderResult.placed (newOrderDoc uid pid oid product) ∧
      findOrder (createOrder cfg db uid pid oid).2 oid =
        some (newOrderDoc uid pid oid product) ∧
      userBalance (createOrder cfg db uid pid oid).2 uid =
        some (user.balance - product.price) ∧
      ∀ crash : Bool,
        ((findOrder (createOrderCrash cfg db uid pid oid crash) oid).isSome ↔
          userBalance (createOrderCrash cfg db uid pid oid crash) uid =
            some (user.balance - product.price))) := by
  by_cases hlt : user.balance < product.price
  · have hfail := createOrder_fail_shape cfg db uid pid oid product user hp hu hlt
    refine ⟨?_, fun _ => hfail, fun hc => absurd hlt hc⟩
    rw [hfail]
    simpa using hlt
  · have hsucc := createOrder_success_shape cfg db uid pid oid product user
      hp hu hlt
    have hord := findOrder_createOrderCommitted cfg db uid pid oid product user
      hfresh
    have hbal := userBalance_createOrderCommitted cfg db uid pid oid product
      user hu hnoself
    refine ⟨?_, fun hc => absurd hc hlt, fun _ => ⟨?_, ?_, ?_, ?_⟩⟩
    · rw [hsucc]
      constructor
      · intro h
        exact absurd h (by simp)
      · intro h
        exact absurd h hlt
    · rw [hsucc]
    · rw [hsucc]
      exact hord
    · rw [hsucc]
      exact hbal
    · intro crash
      cases crash with
      | true =>
        unfold createOrderCrash
        simp only [if_true]
        rw [hfresh]
        unfold userBalance
        rw [hu]
        constructor
        · intro h
          exact absurd h (by simp)
        · intro h
          have hx : user.balance = user.balance - product.price := by
            simpa using h
          have : product.price = 0 := by linarith
          exact absurd this (by positivity)
      | false =>
        unfold createOrderCrash
        simp only [Bool.false_eq_true, if_false]
        rw [hsucc]
        constructor
        · intro _
          exact hbal
        · intro _
          rw [hord]
          rfl

theorem applyReferralBonus_none (cfg : Config) (db : DB) (user : User)
    (h : user.referredBy = none) : applyReferralBonus cfg db user = db := by
  unfold applyReferralBonus
  rw [h]

theorem applyReferralBonus_noReferrer (cfg : Config) (db : DB) (user : User)
    (code : String) (href : user.referredBy = some code)
    (hfind : db.users.find? (fun r => r.referralCode == code) = none) :
    applyReferralBonus cfg db user = db := by
  unfold applyReferralBonus
  rw [href]
  dsimp only
  rw [hfind]

theorem applyReferralBonus_found (cfg : Config) (db : DB) (user : User)
    (code : String) (referrer : User) (href : user.referredBy = some code)
    (hfind : db.users.find? (fun r => r.referralCode == code) = some referrer) :
    applyReferralBonus cfg db user =
      creditUser db referrer.id (calculateReferralBonus cfg) := by
  unfold applyReferralBonus
  rw [href]
  dsimp only
  rw [hfind]

/-- C8: with the product and buyer present and sufficient balance — (a) on
the buyer's first order, a `referredBy` code that resolves to an existing
referrer (other than the buyer, and uniquely carrying that code) credits that
referrer exactly `calculateReferralBonus()`; (b) on any later order
(`hasPlacedFirstOrder` already true) no user other than the buyer changes at
all, so the referrer gets nothing; (c) a missing `referredBy` and (d) a
non-resolving code both still place the order and change no user other than
the buyer. -/
theorem referral_bonus_exactly_once (cfg : Config) (db : DB) (uid : UserId)
    (pid : ProductId) (oid : OrderId) (product : Product) (user : User)
    (hp : findProduct db pid = some product)
    (hu : findUser db uid = some user)
    (hbal : ¬ user.balance < product.price) :
    (∀ code referrer,
      user.hasPlacedFirstOrder = false →
      user.referredBy = some code →
      db.users.find? (fun r => r.referralCode == code) = some referrer →
      findUser db referrer.id = some referrer →
      (∀ r ∈ db.users, r.referralCode = code → r.id ≠ uid) →
      userBalance (createOrder cfg db uid pid oid).2 referrer.id =
        some (referrer.balance + calculateReferralBonus cfg)) ∧
    (user.hasPlacedFirstOrder = true →
      ∀ w, w ≠ uid →
        userBalance (createOrder cfg db uid pid oid).2 w = userBalance db w) ∧
    (user.referredBy = none →
      (createOrder cfg db uid pid oid).1 =
        OrderResult.placed (newOrderDoc uid pid oid product) ∧
      ∀ w, w ≠ uid →
        userBalance (createOrder cfg db uid pid oid).2 w = userBalance db w) ∧
    (∀ code, user.referredBy = some code →
      db.users.find? (fun r => r.referralCode == code) = none →
      (createOrder cfg db uid pid oid).1 =
        OrderResult.placed (newOrderDoc uid pid oid product) ∧
      ∀ w, w ≠ uid →
        userBalance (createOrder cfg db uid pid oid).2 w = userBalance db w) := by
  have hsucc := createOrder_success_shape cfg db uid pid oid product user
    hp hu hbal
  have husers2 : (debitBuyer (insertOrder db (newOrderDoc uid pid oid product))
      uid product.price).users =
      updateFirstWhere db.users (fun u => u.id == uid)
        (buyerUpdate product.price) := rfl
  have hframe : ∀ w, w ≠ uid →
      findUser (debitBuyer (insertOrder db (newOrderDoc uid pid oid product))
        uid product.price) w = findUser db w := by
    intro w hw
    exact findUser_debitBuyer_other _ uid w product.price hw
  refine ⟨?_, ?_, ?_, ?_⟩
  · intro code referrer hfirst href hrr hrid hunique
    rw [hsucc]
    unfold createOrderCommitted
    rw [hfirst]
    simp only [Bool.not_false, if_true]
    have h1 : ∀ x ∈ db.users, (fun u => u.id == uid) x = true →
        (fun r => r.referralCode == code) x = false := by
      intro x hx hpx
      have hxid : x.id = uid := by simpa using hpx
      cases hqx : (x.referralCode == code) with
      | false => exact hqx
      | true =>
        have : x.referralCode = code := by simpa using hqx
        exact absurd hxid (hunique x hx this)
    have h2 : ∀ x ∈ db.users, (fun u => u.id == uid) x = true →
        (fun r => r.referralCode == code) (buyerUpdate product.price x) =
          false := h1
    have hrr2 : (debitBuyer (insertOrder db (newOrderDoc uid pid oid product))
        uid product.price).users.find? (fun r => r.referralCode == code) =
        some referrer := by
      rw [husers2]
      rw [find?_updateFirstWhere_disjoint _ _ _ db.users h1 h2]
      exact hrr
    rw [applyReferralBonus_found cfg _ user code referrer href hrr2]
    have hrmem : referrer ∈ db.users := List.mem_of_find?_eq_some hrr
    have hrcode : referrer.referralCode = code := by
      have := List.find?_some hrr
      simpa using this
    have hrne : referrer.id ≠ uid := hunique referrer hrmem hrcode
    have hr2 : findUser (debitBuyer (insertOrder db
        (newOrderDoc uid pid oid product)) uid product.price) referrer.id =
        some referrer := by
      rw [hframe referrer.id hrne]
      exact hrid
    unfold creditUser userBalance
    rw [findUser_updateUser_self _ referrer.id
      (fun u => { u with balance := u.balance + calculateReferralBonus cfg })
      (fun _ => rfl) hr2]
    rfl
  · intro hfirst w hw
    rw [hsucc]
    unfold createOrderCommitted
    rw [hfirst]
    simp only [Bool.not_true, Bool.false_eq_true, if_false]
    unfold userBalance
    rw [hframe w hw]
  · intro href
    refine ⟨by rw [hsucc], ?_⟩
    intro w hw
    rw [hsucc]
    unfold createOrderCommitted
    cases user.hasPlacedFirstOrder with
    | false =>
      simp only [Bool.not_false, if_true]
      rw [applyReferralBonus_none cfg _ user href]
      unfold userBalance
      rw [hframe w hw]
    | true =>
      simp only [Bool.not_true, Bool.false_eq_true, if_false]
      unfold userBalance
      rw [hframe w hw]
  · intro code href hnores
    refine ⟨by rw [hsucc], ?_⟩
    intro w hw
    rw [hsucc]
    unfold createOrderCommitted
    cases user.hasPlacedFirstOrder with
    | false =>
      simp only [Bool.not_false, if_true]
      have hnores2 : (debitBuyer (insertOrder db
          (newOrderDoc uid pid oid product)) uid
          product.price).users.find? (fun r => r.referralCode == code) =
          none := by
        rw [husers2]
        exact find?_updateFirstWhere_congr (fun u => u.id == uid)
          (fun r => r.referralCode == code) (buyerUpdate product.price)
          (fun _ => rfl) db.users hnores
      rw [applyReferralBonus_noReferrer cfg _ user code href hnores2]
      unfold userBalance
      rw [hframe w hw]
    | true =>
      simp only [Bool.not_true, Bool.false_eq_true, if_false]
      unfold userBalance
      rw [hframe w hw]

theorem txWithdrawalNeDeposit : (TxType.withdrawal = TxType.deposit) = False := by
  simp

/-- C1 (code-bug evaluation): on a user with balance `B = 100` and submitted
bank details, a withdrawal request of `A = 40` immediately debits the balance
to `60 = B - A` and stores a pending withdrawal; admin approval leaves the
balance at `60`, as claimed — but admin rejection also leaves it at `60`: the
reject branch of `PUT /api/admin/transactions/:id/process` writes only the
status and notes and never re-credits the reserved amount, so the balance is
not restored to `B = 100`. -/
theorem withdrawal_rejection_keeps_debit :
    (withdraw demoDb 1 40 7).1 =
      WithdrawResult.submitted
        ⟨1, 7, TxType.withdrawal, 40, TxStatus.pending, none⟩ ∧
    userBalance (withdraw demoDb 1 40 7).2 1 = some 60 ∧
    (findTransaction (withdraw demoDb 1 40 7).2 7).map (fun t => t.status) =
      some TxStatus.pending ∧
    userBalance
      (adminProcessTransaction (withdraw demoDb 1 40 7).2 7
        ProcessAction.approve none).2 1 = some 60 ∧
    (findTransaction
      (adminProcessTransaction (withdraw demoDb 1 40 7).2 7
        ProcessAction.reject none).2 7).map (fun t => t.status) =
      some TxStatus.rejected ∧
    userBalance
      (adminProcessTransaction (withdraw demoDb 1 40 7).2 7
        ProcessAction.reject none).2 1 = some 60 ∧
    userBalance demoDb 1 = some 100 ∧
    some (60 : Amount) ≠ some (100 : Amount) := by
  norm_num [withdraw, demoDb, demoUser, findUser, canMakeWithdrawal, updateUser,
    updateFirstWhere, userBalance, findTransaction, adminProcessTransaction,
    updateTransactionDoc, txWithdrawalNeDeposit]

/-- C6 (code-bug evaluation): with the deposit lease held for transaction 101
of amount 100, a validly signed `payment.captured` webhook whose amount
converts to 50 matches no pending deposit; instead of a safe no-op the
handler dereferences the null `findOneAndUpdate` result and raises a
TypeError. -/
theorem webhook_mismatch_raises_null_deref :
    (deposit 0 300000 demoSys 1 100 101).1 =
      DepositResult.submitted
        ⟨1, 101, TxType.deposit, 100, TxStatus.pending, none⟩ ∧
    webhookReceived (deposit 0 300000 demoSys 1 100 101).2 true
        "payment.captured" 5000 =
      Except.error WebhookError.nullDeref := by
  norm_num [deposit, demoSys, demoDb, demoUser, webhookReceived, findUser,
    updateUser, updateFirstWhere, Gateway.init, webhookFilter,
    markDepositSuccess, markedTransactions, resetval]

/-- C7: a transaction whose status is `approved`, `success` or `rejected` is
frozen — any admin process action on its id returns `AlreadyProcessed` and
leaves the whole store (statuses and balances) unchanged; and after a process
action succeeds on a pending transaction, a second process action on the same
id returns `AlreadyProcessed` and changes nothing. -/
theorem processed_transaction_is_frozen
    (db : DB) (i : TxId) (action action2 : ProcessAction)
    (notes notes2 : Option String) (t : Transaction)
    (ht : findTransaction db i = some t) :
    (t.status = TxStatus.approved ∨ t.status = TxStatus.success ∨
        t.status = TxStatus.rejected →
      adminProcessTransaction db i action notes =
        (ProcessResult.alreadyProcessed, db)) ∧
    (t.status = TxStatus.pending →
      adminProcessTransaction (adminProcessTransaction db i action notes).2 i
          action2 notes2 =
        (ProcessResult.alreadyProcessed,
          (adminProcessTransaction db i action notes).2)) := by
  have hti : t.transactionId = i := findTransaction_some_id db i ht
  constructor
  · intro hs
    have hne : t.status ≠ TxStatus.pending := by
      rcases hs with h | h | h <;> simp [h]
    unfold adminProcessTransaction
    rw [ht]
    simp [hne]
  · intro hpend
    cases action with
    | approve =>
      have heq : adminProcessTransaction db i ProcessAction.approve notes =
          (ProcessResult.processed
              { t with status := TxStatus.success, adminNotes := notes },
            updateTransactionDoc
              (if t.type = TxType.deposit then
                updateUser db t.userId
                  (fun u => { u with balance := u.balance + t.amount })
              else db) i
              (fun _ =>
                { t with status := TxStatus.success, adminNotes := notes })) := by
        unfold adminProcessTransaction
        rw [ht]
        simp [hpend]
      rw [heq]
      have htx1 : findTransaction
          (if t.type = TxType.deposit then
            updateUser db t.userId
              (fun u => { u with balance := u.balance + t.amount })
          else db) i = some t := by
        split <;> exact ht
      have hfind2 := findTransaction_updateTransactionDoc_self _ i
        (fun _ => { t with status := TxStatus.success, adminNotes := notes })
        (fun _ _ => hti) htx1
      unfold adminProcessTransaction
      rw [hfind2]
      simp
    | reject =>
      have heq : adminProcessTransaction db i ProcessAction.reject notes =
          (ProcessResult.processed
              { t with status := TxStatus.rejected, adminNotes := notes },
            updateTransactionDoc db i
              (fun _ =>
                { t with status := TxStatus.rejected, adminNotes := notes })) := by
        unfold adminProcessTransaction
        rw [ht]
        simp [hpend]
      rw [heq]
      have hfind2 := findTransaction_updateTransactionDoc_self db i
        (fun _ => { t with status := TxStatus.rejected, adminNotes := notes })
        (fun _ _ => hti) ht
      unfold adminProcessTransaction
      rw [hfind2]
      simp

/-- C3: with the lease outstanding for transaction id `i` (so `reset` is
false, as every grant sets it) and a pending deposit matching `i` and the
converted amount, a valid `payment.captured` delivery credits the user once,
marks the transaction `success` and clears the lease; delivering the very
same webhook a second time returns the state completely unchanged, so the
user is credited exactly once. -/
theorem webhook_credits_exactly_once
    (s : Sys) (i : TxId) (t : Transaction) (u : User) (paise : Amount)
    (hlease : s.gw.tr_id = some i)
    (hreset : s.gw.reset = false)
    (hfind : s.db.transactions.find? (webhookFilter i paise) = some t)
    (hpending : t.status = TxStatus.pending)
    (huser : findUser s.db t.userId = some u) :
    ∃ s1 : Sys,
      webhookReceived s true "payment.captured" paise =
        Except.ok (WebhookAck.processed, s1) ∧
      userBalance s1.db t.userId = some (u.balance + t.amount) ∧
      (s1.db.transactions.find? (webhookFilter i paise)).map
        (fun x => x.status) = some TxStatus.success ∧
      s1.gw.tr_id = none ∧
      webhookReceived s1 true "payment.captured" paise =
        Except.ok (WebhookAck.processed, s1) := by
  refine ⟨⟨creditUser (markDepositSuccess s.db i paise) t.userId t.amount,
    resetval s.gw⟩, ?_, ?_, ?_, ?_, ?_⟩
  · unfold webhookReceived
    rw [hlease]
    simp only [hfind]
    simp
  · have h1 : findUser (markDepositSuccess s.db i paise) t.userId = some u :=
      huser
    have h2 := findUser_updateUser_self (markDepositSuccess s.db i paise)
      t.userId (fun u2 => { u2 with balance := u2.balance + t.amount })
      (fun _ => rfl) h1
    unfold userBalance creditUser
    rw [h2]
    rfl
  · have h3 := find?_updateFirstWhere_self (webhookFilter i paise)
      (fun x => { x with status := TxStatus.success })
      (fun x hx => hx) s.db.transactions t hfind
    have h4 : (creditUser (markDepositSuccess s.db i paise) t.userId
        t.amount).transactions =
        updateFirstWhere s.db.transactions (webhookFilter i paise)
          (fun x => { x with status := TxStatus.success }) := rfl
    show ((creditUser (markDepositSuccess s.db i paise) t.userId
        t.amount).transactions.find? (webhookFilter i paise)).map
        (fun x => x.status) = some TxStatus.success
    rw [h4, h3]
    rfl
  · show (resetval s.gw).tr_id = none
    simp [resetval, hreset]
  · have h5 : (resetval s.gw).tr_id = none := by simp [resetval, hreset]
    unfold webhookReceived
    rw [h5]
    simp

/-- Witness for C3: a concrete grant of 10 rupees (transaction id 101) to
`demoUser`, then a matching webhook of 1000 paise delivered twice. -/
theorem webhook_credits_exactly_once_witness :
    ∃ s1 : Sys,
      webhookReceived (deposit 0 300000 demoSys 1 10 101).2 true
          "payment.captured" 1000 =
        Except.ok (WebhookAck.processed, s1) ∧
      userBalance s1.db 1 = some (100 + 10) ∧
      (s1.db.transactions.find? (webhookFilter 101 1000)).map
        (fun x => x.status) = some TxStatus.success ∧
      s1.gw.tr_id = none ∧
      webhookReceived s1 true "payment.captured" 1000 =
        Except.ok (WebhookAck.processed, s1) := by
  have h := webhook_credits_exactly_once (deposit 0 300000 demoSys 1 10 101).2
    101 ⟨1, 101, TxType.deposit, 10, TxStatus.pending, none⟩ demoUser 1000
    (by norm_num [deposit, demoSys, demoDb, Gateway.init])
    (by norm_num [deposit, demoSys, demoDb, Gateway.init])
    (by norm_num [deposit, demoSys, demoDb, demoUser, Gateway.init,
      webhookFilter])
    rfl
    (by norm_num [deposit, demoSys, demoDb, demoUser, findUser, Gateway.init])
  simpa using h

/-- Witness for C2: `buyer` (balance 600) buys `demoProduct` (price 500):
the order is placed, the balance drops to 100, and a crash before commit
shows neither the order nor the debit. -/
theorem createOrder_insufficient_iff_and_atomic_witness :
    (createOrder {} orderDb 3 11 31).1 =
      OrderResult.placed (newOrderDoc 3 11 31 demoProduct) ∧
    findOrder (createOrder {} orderDb 3 11 31).2 31 =
      some (newOrderDoc 3 11 31 demoProduct) ∧
    userBalance (createOrder {} orderDb 3 11 31).2 3 =
      some (buyer.balance - demoProduct.price) ∧
    ((findOrder (createOrderCrash {} orderDb 3 11 31 true) 31).isSome ↔
      userBalance (createOrderCrash {} orderDb 3 11 31 true) 3 =
        some (buyer.balance - demoProduct.price)) := by
  have h := (createOrder_insufficient_iff_and_atomic {} orderDb 3 11 31
    demoProduct buyer
    (by norm_num [findProduct, orderDb, demoProduct])
    (by norm_num [findUser, orderDb, demoUser, buyer])
    (by norm_num [findOrder, orderDb])
    (by norm_num [demoProduct])
    (by
      intro r hr hc
      simp [orderDb] at hr
      rcases hr with h | h
      · subst h; norm_num [demoUser]
      · subst h; simp [buyer, demoUser] at hc)).2.2
    (by norm_num [buyer, demoProduct])
  exact ⟨h.1, h.2.1, h.2.2.1, h.2.2.2 true⟩

/-- Witness for C8: the first order of `buyer` credits the referrer
`demoUser` (user 1) exactly the fixed bonus. -/
theorem referral_bonus_exactly_once_witness :
    userBalance (createOrder {} orderDb 3 11 31).2 demoUser.id =
      some (demoUser.balance + calculateReferralBonus {}) := by
  have h := (referral_bonus_exactly_once {} orderDb 3 11 31 demoProduct buyer
    (by norm_num [findProduct, orderDb, demoProduct])
    (by norm_num [findUser, orderDb, demoUser, buyer])
    (by norm_num [buyer, demoProduct])).1 "AAA111" demoUser rfl rfl
    (by norm_num [orderDb, demoUser, buyer, List.find?])
    (by norm_num [findUser, orderDb, demoUser])
    (by
      intro r hr hc
      simp [orderDb] at hr
      rcases hr with h | h
      · subst h; norm_num [demoUser]
      · subst h; simp [buyer] at hc)
  exact h

/-- Witness for C7 at a concrete store: transaction 7 is already `success`,
so processing returns `AlreadyProcessed`; the second conjunct applies to a
pending transaction after one approval. -/
theorem processed_transaction_is_frozen_witness :
    (adminProcessTransaction
        { demoDb with transactions :=
            [⟨1, 7, TxType.withdrawal, 40, TxStatus.success, none⟩] } 7
        ProcessAction.reject none =
      (ProcessResult.alreadyProcessed,
        { demoDb with transactions :=
            [⟨1, 7, TxType.withdrawal, 40, TxStatus.success, none⟩] })) := by
  exact (processed_transaction_is_frozen
    { demoDb with transactions :=
        [⟨1, 7, TxType.withdrawal, 40, TxStatus.success, none⟩] }
    7 ProcessAction.reject ProcessAction.approve none none
    ⟨1, 7, TxType.withdrawal, 40, TxStatus.success, none⟩ (by decide)).1
    (by decide)

/-- C4: in one settlement run, an active order with `validity = v ≥ 1`, an
existing product, and no other active order of the same user, credits its
user exactly `perDayEarning` once and leaves the order saved as
`settleOrderDoc`, whose validity is `v - 1`, completed with `endDate = now`
exactly when `v = 1` and still active otherwise; an already completed order
is left entirely unchanged by the run. -/
theorem settlement_run_per_order (now : ℕ) (db : DB) (o : Order)
    (ho : findOrder db o.id = some o)
    (hnodup : (db.orders.map (fun x => x.id)).Nodup) :
    (o.status = OrderStatus.active →
      ∀ p u, findProduct db o.productId = some p →
        findUser db o.userId = some u →
        1 ≤ o.validity →
        (∀ o2 ∈ db.orders, o2.status = OrderStatus.active →
          o2.userId = o.userId → o2 = o) →
        userBalance (updateBalances now db) o.userId =
          some (u.balance + p.perDayEarning) ∧
        findOrder (updateBalances now db) o.id = some (settleOrderDoc now o) ∧
        (settleOrderDoc now o).validity = o.validity - 1 ∧
        (o.validity = 1 →
          (settleOrderDoc now o).status = OrderStatus.completed ∧
          (settleOrderDoc now o).endDate = some now) ∧
        (1 < o.validity →
          (settleOrderDoc now o).status = OrderStatus.active ∧
          (settleOrderDoc now o).endDate = o.endDate)) ∧
    (o.status = OrderStatus.completed →
      findOrder (updateBalances now db) o.id = some o) := by
  have hmem : o ∈ db.orders := by
    have := List.mem_of_find?_eq_some ho
    exact this
  have hids : ∀ o2 ∈ db.orders, o2.id = o.id → o2 = o := by
    intro o2 h2 heq
    exact List.inj_on_of_nodup_map hnodup h2 hmem heq
  have hsub : List.Sublist
      (db.orders.filter (fun x => x.status == OrderStatus.active))
      db.orders := List.filter_sublist _
  have hnodupL : ((db.orders.filter
      (fun x => x.status == OrderStatus.active)).map
      (fun x => x.id)).Nodup := hnodup.sublist (hsub.map _)
  have hidsL : ∀ o2 ∈ db.orders.filter
      (fun x => x.status == OrderStatus.active), o2.id = o.id → o2 = o := by
    intro o2 h2 heq
    exact hids o2 (List.mem_filter.mp h2).1 heq
  constructor
  · intro hactive p u hp hu hv honly
    have hmemL : o ∈ db.orders.filter
        (fun x => x.status == OrderStatus.active) :=
      List.mem_filter.mpr ⟨hmem, by simp [hactive]⟩
    have hz : ∀ o2 ∈ db.orders.filter
        (fun x => x.status == OrderStatus.active), o2 ≠ o →
        settlementCredit db.products o.userId o2 = 0 := by
      intro o2 h2 hne
      have h2m := List.mem_filter.mp h2
      have h2a : o2.status = OrderStatus.active := by
        have := h2m.2
        simpa using this
      have hneu : (o2.userId == o.userId) = false := by
        cases hbe : (o2.userId == o.userId) with
        | false => rfl
        | true =>
          have : o2.userId = o.userId := by simpa using hbe
          exact absurd (honly o2 h2m.1 h2a this) hne
      unfold settlementCredit
      rw [hneu]
      simp
    have hcredit : settlementCredits db.products o.userId
        (db.orders.filter (fun x => x.status == OrderStatus.active)) =
        p.perDayEarning := by
      rw [settlementCredits_single db.products o.userId _ o hmemL hnodupL hz]
      unfold settlementCredit
      unfold findProduct at hp
      rw [hp]
      simp
    refine ⟨?_, ?_, ?_, ?_, ?_⟩
    · rcases findUser_foldl_settle now
        (db.orders.filter (fun x => x.status == OrderStatus.active)) db
        o.userId u hu with ⟨u2, hfind, hbal, _⟩
      show (findUser _ o.userId).map (fun x => x.balance) = _
      unfold updateBalances
      rw [hfind]
      simp only [Option.map_some']
      rw [hbal, hcredit]
    · unfold updateBalances
      exact findOrder_run_settled now _ db o p hmemL hnodupL hidsL ho hp
    · unfold settleOrderDoc
      by_cases h : o.validity - 1 ≤ 0 <;> simp [h]
    · intro h1
      unfold settleOrderDoc
      rw [h1]
      norm_num
    · intro h1
      have hgt : ¬ (o.validity - 1 ≤ 0) := by omega
      unfold settleOrderDoc
      simp [hgt, hactive]
  · intro hcompleted
    have hne : ∀ o2 ∈ db.orders.filter
        (fun x => x.status == OrderStatus.active), o2.id ≠ o.id := by
      intro o2 h2 heq
      have h2m := List.mem_filter.mp h2
      have h2a : o2.status = OrderStatus.active := by
        have := h2m.2
        simpa using this
      have : o2 = o := hids o2 h2m.1 heq
      rw [this] at h2a
      rw [hcompleted] at h2a
      exact absurd h2a (by simp)
    unfold updateBalances
    rw [findOrder_run_frame now _ db o.id hne]
    exact ho

/-- Witness for C4: one active order of `cronUser` with validity 1 on
`demoProduct`: the run credits 50 once and completes the order with
`endDate = 99`. -/
theorem settlement_run_per_order_witness :
    userBalance (updateBalances 99 cronDb) cronOrder.userId =
      some (cronUser.balance + demoProduct.perDayEarning) ∧
    findOrder (updateBalances 99 cronDb) cronOrder.id =
      some (settleOrderDoc 99 cronOrder) ∧
    (settleOrderDoc 99 cronOrder).validity = cronOrder.validity - 1 ∧
    (settleOrderDoc 99 cronOrder).status = OrderStatus.completed ∧
    (settleOrderDoc 99 cronOrder).endDate = some 99 := by
  have h := (settlement_run_per_order 99 cronDb cronOrder
    (by norm_num [findOrder, cronDb, cronOrder])
    (by norm_num [cronDb, cronOrder])).1 rfl demoProduct cronUser
    (by norm_num [findProduct, cronDb, demoProduct, cronOrder])
    (by norm_num [findUser, cronDb, cronUser, cronOrder])
    (by norm_num [cronOrder])
    (by
      intro o2 h2 _ _
      simp [cronDb] at h2
      exact h2)
  exact ⟨h.1, h.2.1, h.2.2.1, (h.2.2.2.1 rfl).1, (h.2.2.2.1 rfl).2⟩

/-- C10: an active order whose product no longer exists is skipped whole by
the settlement loop: its own iteration is the identity on the store, after
the full run the order document is unchanged (still active, same validity),
and — when it is its user's only active order — the user's balance is
unchanged too, so the order is reconsidered on every future run. -/
theorem settlement_skips_orphan_order (now : ℕ) (db : DB) (o : Order)
    (ho : findOrder db o.id = some o)
    (hnodup : (db.orders.map (fun x => x.id)).Nodup)
    (hactive : o.status = OrderStatus.active)
    (hp : findProduct db o.productId = none) :
    settleOrder now db o = db ∧
    findOrder (updateBalances now db) o.id = some o ∧
    (∀ u, findUser db o.userId = some u →
      (∀ o2 ∈ db.orders, o2.status = OrderStatus.active →
        o2.userId = o.userId → o2 = o) →
      userBalance (updateBalances now db) o.userId =
        userBalance db o.userId) := by
  have hmem : o ∈ db.orders := List.mem_of_find?_eq_some ho
  have hids : ∀ o2 ∈ db.orders, o2.id = o.id → o2 = o := by
    intro o2 h2 heq
    exact List.inj_on_of_nodup_map hnodup h2 hmem heq
  have hsub : List.Sublist
      (db.orders.filter (fun x => x.status == OrderStatus.active))
      db.orders := List.filter_sublist _
  have hnodupL : ((db.orders.filter
      (fun x => x.status == OrderStatus.active)).map
      (fun x => x.id)).Nodup := hnodup.sublist (hsub.map _)
  have hidsL : ∀ o2 ∈ db.orders.filter
      (fun x => x.status == OrderStatus.active), o2.id = o.id → o2 = o := by
    intro o2 h2 heq
    exact hids o2 (List.mem_filter.mp h2).1 heq
  refine ⟨settleOrder_of_no_product now db o hp, ?_, ?_⟩
  · unfold updateBalances
    exact findOrder_run_skipped now _ db o hidsL ho hp
  · intro u hu honly
    have hmemL : o ∈ db.orders.filter
        (fun x => x.status == OrderStatus.active) :=
      List.mem_filter.mpr ⟨hmem, by simp [hactive]⟩
    have hz : ∀ o2 ∈ db.orders.filter
        (fun x => x.status == OrderStatus.active), o2 ≠ o →
        settlementCredit db.products o.userId o2 = 0 := by
      intro o2 h2 hne
      have h2m := List.mem_filter.mp h2
      have h2a : o2.status = OrderStatus.active := by
        have := h2m.2
        simpa using this
      have hneu : (o2.userId == o.userId) = false := by
        cases hbe : (o2.userId == o.userId) with
        | false => rfl
        | true =>
          have : o2.userId = o.userId := by simpa using hbe
          exact absurd (honly o2 h2m.1 h2a this) hne
      unfold settlementCredit
      rw [hneu]
      simp
    have hcredit : settlementCredits db.products o.userId
        (db.orders.filter (fun x => x.status == OrderStatus.active)) = 0 := by
      rw [settlementCredits_single db.products o.userId _ o hmemL hnodupL hz]
      unfold settlementCredit
      unfold findProduct at hp
      rw [hp]
      simp
    rcases findUser_foldl_settle now
      (db.orders.filter (fun x => x.status == OrderStatus.active)) db
      o.userId u hu with ⟨u2, hfind, hbal, _⟩
    show (findUser _ o.userId).map (fun x => x.balance) = _
    unfold updateBalances
    rw [hfind]
    simp only [Option.map_some']
    rw [hbal, hcredit]
    unfold userBalance
    rw [hu]
    norm_num

/-- Witness for C10: `orphanOrder` points at product id 99 which does not
exist; the run leaves the store record and the balance untouched. -/
theorem settlement_skips_orphan_order_witness :
    settleOrder 5 orphanDb orphanOrder = orphanDb ∧
    findOrder (updateBalances 5 orphanDb) orphanOrder.id = some orphanOrder ∧
    userBalance (updateBalances 5 orphanDb) orphanOrder.userId =
      userBalance orphanDb orphanOrder.userId := by
  have h := settlement_skips_orphan_order 5 orphanDb orphanOrder
    (by norm_num [findOrder, orphanDb, orphanOrder])
    (by norm_num [orphanDb, orphanOrder])
    rfl
    (by norm_num [findProduct, orphanDb, demoProduct, orphanOrder])
  refine ⟨h.1, h.2.1, ?_⟩
  exact h.2.2 cronUser (by norm_num [findUser, orphanDb, cronUser, orphanOrder])
    (by
      intro o2 h2 _ _
      simp [orphanDb] at h2
      exact h2)

theorem settleOrderE_ok_products (now : ℕ) (saveFails : OrderId → Bool)
    (db : DB) (a : Order) (db1 : DB)
    (h : settleOrderE now saveFails db a = Except.ok db1) :
    db1.products = db.products := by
  unfold settleOrderE at h
  cases hp : findProduct db a.productId with
  | none =>
    rw [hp] at h
    injection h with h
    rw [← h]
  | some p =>
    rw [hp] at h
    dsimp only at h
    by_cases hsf : saveFails a.id = true
    · rw [if_pos hsf] at h
      exact absurd h (by simp)
    · rw [if_neg hsf] at h
      injection h with h
      rw [← h]
      rfl

theorem foldlM_settle_error (now : ℕ) (saveFails : OrderId → Bool) :
    ∀ (L : List Order) (db : DB),
      (∃ o ∈ L, saveFails o.id = true ∧
        (findProduct db o.productId).isSome = true) →
      L.foldlM (settleOrderE now saveFails) db = Except.error () := by
  intro L
  induction L with
  | nil =>
    intro db h
    rcases h with ⟨o, hmem, _⟩
    exact absurd hmem (List.not_mem_nil o)
  | cons a L ih =>
    intro db h
    rw [List.foldlM_cons]
    cases ha : settleOrderE now saveFails db a with
    | error e =>
      cases e
      rfl
    | ok db1 =>
      show L.foldlM (settleOrderE now saveFails) db1 = Except.error ()
      rcases h with ⟨o, hmem, hsf, hps⟩
      rcases List.mem_cons.mp hmem with hoa | hoL
      · exfalso
        unfold settleOrderE at ha
        rw [← hoa] at ha
        rcases Option.isSome_iff_exists.mp hps with ⟨p, hp⟩
        rw [hp] at ha
        dsimp only at ha
        rw [if_pos hsf] at ha
        exact absurd ha (by simp)
      · refine ih db1 ⟨o, hoL, hsf, ?_⟩
        have hprod : findProduct db1 o.productId = findProduct db o.productId := by
          unfold findProduct
          rw [settleOrderE_ok_products now saveFails db a db1 ha]
        rw [hprod]
        exact hps

theorem foldlM_settle_no_failure (now : ℕ) :
    ∀ (L : List Order) (db : DB),
      L.foldlM (settleOrderE now (fun _ => false)) db =
        Except.ok (L.foldl (settleOrder now) db) := by
  intro L
  induction L with
  | nil => intro db; rfl
  | cons a L ih =>
    intro db
    rw [List.foldlM_cons]
    have hstep : settleOrderE now (fun _ => false) db a =
        Except.ok (settleOrder now db a) := by
      unfold settleOrderE settleOrder
      cases hp : findProduct db a.productId <;> simp
    rw [hstep]
    show L.foldlM (settleOrderE now (fun _ => false)) (settleOrder now db a) = _
    rw [List.foldl_cons]
    exact ih (settleOrder now db a)

/-- C5 (amended): the settlement scan is one atomic unit over the whole run,
not one unit per order — if saving any active order with an existing product
fails, the single wrapping session aborts and the entire store reverts, so
no other order's credit or decrement commits either; a failure-free run
commits all settlements. -/
theorem settlement_scan_is_one_atomic_unit (now : ℕ)
    (saveFails : OrderId → Bool) (db : DB) (o : Order)
    (hmem : o ∈ db.orders) (hactive : o.status = OrderStatus.active)
    (hp : (findProduct db o.productId).isSome = true)
    (hsf : saveFails o.id = true) :
    updateBalancesWithFailure now saveFails db = db ∧
    updateBalancesWithFailure now (fun _ => false) db =
      updateBalances now db := by
  constructor
  · have hmemL : o ∈ db.orders.filter
        (fun x => x.status == OrderStatus.active) :=
      List.mem_filter.mpr ⟨hmem, by simp [hactive]⟩
    have herr := foldlM_settle_error now saveFails
      (db.orders.filter (fun x => x.status == OrderStatus.active)) db
      ⟨o, hmemL, hsf, hp⟩
    unfold updateBalancesWithFailure
    rw [herr]
  · unfold updateBalancesWithFailure updateBalances
    rw [foldlM_settle_no_failure]

/-- C5 (counterexample): two active orders 21 (user 1) and 23 (user 2) on the
same product; saving order 23 fails.  The claim says order 21's credit of 50
and its validity decrement still commit; in fact the whole run rolls back —
user 1 keeps balance 0 and order 21 keeps validity 2 — although the
failure-free run would have credited 50. -/
theorem settlement_partial_failure_counterexample :
    updateBalancesWithFailure 7 (fun i => i == 23) cronFailDb = cronFailDb ∧
    userBalance (updateBalancesWithFailure 7 (fun i => i == 23) cronFailDb) 1 =
      some 0 ∧
    (findOrder (updateBalancesWithFailure 7 (fun i => i == 23) cronFailDb)
      21).map (fun x => x.validity) = some 2 ∧
    userBalance (updateBalances 7 cronFailDb) 1 = some 50 ∧
    some (0 : Amount) ≠ some (50 : Amount) := by
  refine ⟨?_, ?_, ?_, ?_, by norm_num⟩ <;>
    norm_num [updateBalancesWithFailure, updateBalances, settleOrderE,
      settleOrder, settleOrderDoc, cronFailDb, demoUser, cronUser, demoProduct,
      findProduct, findUser, findOrder, userBalance, creditUser, updateUser,
      updateOrder, updateFirstWhere, List.foldlM, List.filter, bind,
      Except.bind]

theorem resetval_of_reset_true (g : Gateway) (h : g.reset = true) :
    resetval g = g := by
  unfold resetval
  rw [h]
  simp

theorem resetval_of_reset_false (g : Gateway) (h : g.reset = false) :
    resetval g =
      { g with deposit_busy := false, tr_id := none, reset := true } := by
  unfold resetval
  rw [h]
  simp

theorem foldl_resetval_of_reset_true :
    ∀ (l : List ℕ) (g : Gateway), g.reset = true →
      l.foldl (fun acc _ => resetval acc) g = g := by
  intro l
  induction l with
  | nil => intro g _; rfl
  | cons x xs ih =>
    intro g h
    rw [List.foldl_cons, resetval_of_reset_true g h]
    exact ih g h

theorem foldl_resetval_of_reset_false :
    ∀ (l : List ℕ) (g : Gateway), g.reset = false → l ≠ [] →
      l.foldl (fun acc _ => resetval acc) g =
        { g with deposit_busy := false, tr_id := none, reset := true } := by
  intro l
  induction l with
  | nil => intro g _ h; exact absurd rfl h
  | cons x xs _ =>
    intro g h _
    rw [List.foldl_cons, resetval_of_reset_false g h]
    exact foldl_resetval_of_reset_true xs _ rfl

theorem fireDueTimers_no_due (now : ℕ) (g : Gateway)
    (h : ∀ tm ∈ g.timers, ¬ tm ≤ now) : fireDueTimers now g = g := by
  unfold fireDueTimers
  have hdue : g.timers.filter (fun t => decide (t ≤ now)) = [] := by
    rw [List.filter_eq_nil_iff]
    intro a ha
    simp [h a ha]
  have hrest : g.timers.filter (fun t => decide (¬ t ≤ now)) = g.timers := by
    rw [List.filter_eq_self]
    intro a ha
    simp [h a ha]
  dsimp only
  rw [hdue, hrest]
  rfl

theorem fireDueTimers_due (now : ℕ) (g : Gateway) (hreset : g.reset = false)
    (hdue : ∃ tm ∈ g.timers, tm ≤ now) :
    (fireDueTimers now g).deposit_busy = false := by
  unfold fireDueTimers
  rcases hdue with ⟨tm, htm, hle⟩
  have hmem : tm ∈ g.timers.filter (fun t => decide (t ≤ now)) :=
    List.mem_filter.mpr ⟨htm, by simp [hle]⟩
  have hne : g.timers.filter (fun t => decide (t ≤ now)) ≠ [] :=
    List.ne_nil_of_mem hmem
  dsimp only
  have hrw := foldl_resetval_of_reset_false
    (g.timers.filter (fun t => decide (t ≤ now)))
    ⟨g.tr_id, g.deposit_busy, g.reset,
      g.timers.filter (fun t => decide (¬ t ≤ now))⟩ hreset hne
  rw [hrw]

theorem deposit_busy_state (now timeout : ℕ) (s : Sys) (uid : UserId)
    (amt : Amount) (txid : TxId) (hamt : ¬ amt < 1)
    (hb : s.gw.deposit_busy = true) :
    deposit now timeout s uid amt txid = (DepositResult.gatewayBusy, s) := by
  unfold deposit
  simp [hamt, hb]

theorem deposit_granted (now timeout : ℕ) (s : Sys) (uid : UserId)
    (amt : Amount) (txid : TxId) (hamt : ¬ amt < 1)
    (hnb : s.gw.deposit_busy = false) :
    (deposit now timeout s uid amt txid).1 =
      DepositResult.submitted
        ⟨uid, txid, TxType.deposit, amt, TxStatus.pending, none⟩ := by
  unfold deposit
  simp [hamt, hnb]

/-- C9 (amended): provided no stale timer from a previously released lease is
due, a deposit attempt while the gate is busy fails with `GatewayBusy` and
changes nothing — and once a granted deposit's configured timeout has
elapsed, its own timer has released the lease, so a new attempt is granted
again without any explicit release. -/
theorem gateway_lease_busy_and_timeout (timeout : ℕ) (s : Sys) (now : ℕ)
    (uid : UserId) (amt : Amount) (txid : TxId) (hamt : ¬ amt < 1) :
    (s.gw.deposit_busy = true → (∀ tm ∈ s.gw.timers, ¬ tm ≤ now) →
      attemptDeposit timeout s now uid amt txid =
        (DepositResult.gatewayBusy, s)) ∧
    (∀ (t0 : ℕ) (uid0 : UserId) (amt0 : Amount) (txid0 : TxId),
      s.gw.deposit_busy = false → ¬ amt0 < 1 → t0 + timeout ≤ now →
      (attemptDeposit timeout (deposit t0 timeout s uid0 amt0 txid0).2 now uid
        amt txid).1 =
      DepositResult.submitted
        ⟨uid, txid, TxType.deposit, amt, TxStatus.pending, none⟩) := by
  constructor
  · intro hbusy hnodue
    unfold attemptDeposit
    rw [fireDueTimers_no_due now s.gw hnodue]
    exact deposit_busy_state now timeout ⟨s.db, s.gw⟩ uid amt txid hamt hbusy
  · intro t0 uid0 amt0 txid0 hnb hamt0 hle
    have hreset2 : ((deposit t0 timeout s uid0 amt0 txid0).2).gw.reset =
        false := by
      unfold deposit
      simp [hamt0, hnb]
    have hmem2 : t0 + timeout ∈
        ((deposit t0 timeout s uid0 amt0 txid0).2).gw.timers := by
      unfold deposit
      simp [hamt0, hnb]
    have hfire := fireDueTimers_due now _ hreset2 ⟨t0 + timeout, hmem2, hle⟩
    show (deposit now timeout
      ⟨(deposit t0 timeout s uid0 amt0 txid0).2.db,
        fireDueTimers now (deposit t0 timeout s uid0 amt0 txid0).2.gw⟩
      uid amt txid).1 = _
    exact deposit_granted now timeout _ uid amt txid hamt hfire

/-- Witness for C9 (amended): with the lease held for transaction 101
(granted at time 0, timer at 5), an attempt at time 3 is refused; an attempt
at time 5 (the configured timeout) is granted again. -/
theorem gateway_lease_busy_and_timeout_witness :
    attemptDeposit 5 (deposit 0 5 demoSys 1 10 101).2 3 1 20 102 =
      (DepositResult.gatewayBusy, (deposit 0 5 demoSys 1 10 101).2) ∧
    (attemptDeposit 5 (deposit 0 5 demoSys 1 10 101).2 5 1 20 102).1 =
      DepositResult.submitted
        ⟨1, 102, TxType.deposit, 20, TxStatus.pending, none⟩ := by
  constructor
  · exact (gateway_lease_busy_and_timeout 5 (deposit 0 5 demoSys 1 10 101).2 3
      1 20 102 (by norm_num)).1
      (by norm_num [deposit, demoSys, demoDb, Gateway.init])
      (by
        intro tm htm
        norm_num [deposit, demoSys, demoDb, Gateway.init] at htm
        omega)
  · exact (gateway_lease_busy_and_timeout 5 demoSys 5 1 20 102
      (by norm_num)).2 0 1 10 101
      (by norm_num [demoSys, Gateway.init])
      (by norm_num)
      (by norm_num)

/-- C9 (counterexample): run `staleTrace` with timeout 5.  Afterwards the
lease is held for deposit 102: it was granted at time 2, its transaction is
still pending, no webhook for it succeeded, and its own timeout expires only
at 7.  Yet a new deposit attempt at time 6 < 7 is granted (creating a new
transaction) instead of failing with `GatewayBusy`, because the stale timer
scheduled at 5 by the already-released lease 101 fires first and clears the
gate. -/
theorem gateway_stale_timer_counterexample :
    (findTransaction (runTrace 5 demoSys staleTrace).db 102).map
      (fun t => t.status) = some TxStatus.pending ∧
    (runTrace 5 demoSys staleTrace).gw.tr_id = some 102 ∧
    (runTrace 5 demoSys staleTrace).gw.deposit_busy = true ∧
    (runTrace 5 demoSys staleTrace).gw.timers = [5, 7] ∧
    (6 : ℕ) < 2 + 5 ∧
    (attemptDeposit 5 (runTrace 5 demoSys staleTrace) 6 1 30 103).1 =
      DepositResult.submitted
        ⟨1, 103, TxType.deposit, 30, TxStatus.pending, none⟩ := by
  refine ⟨?_, ?_, ?_, ?_, by norm_num, ?_⟩ <;>
    norm_num [runTrace, staleTrace, stepAt, deposit, webhookReceived,
      fireDueTimers, resetval, demoSys, demoDb, demoUser, Gateway.init,
      findTransaction, webhookFilter, markDepositSuccess, markedTransactions,
      updateFirstWhere, creditUser, updateUser, attemptDeposit, List.filter,
      findUser]

/-- Witness for C5 (amended) at the same concrete store. -/
theorem settlement_scan_is_one_atomic_unit_witness :
    updateBalancesWithFailure 7 (fun i => i == 23) cronFailDb = cronFailDb ∧
    updateBalancesWithFailure 7 (fun _ => false) cronFailDb =
      updateBalances 7 cronFailDb := by
  exact settlement_scan_is_one_atomic_unit 7 (fun i => i == 23) cronFailDb
    ⟨23, 2, 11, 3, OrderStatus.active, none⟩
    (by norm_num [cronFailDb])
    rfl
    (by norm_num [findProduct, cronFailDb, demoProduct])
    (by norm_num)

end Howorth
